import Mathlib

/-!
Verification of the hallmark repository (src/mod/hallmark/core.py) against its
natural-language specification.

The module has two components:
  * a row-filtering helper monkey-patched onto pandas DataFrames
    (function filter, core.py lines 24-50), and
  * the ParaFrame table builder (core.py lines 57-136), which resolves a
    naming template into a glob pattern by an iterative rewrite loop,
    enumerates the filesystem, re-parses each matched path against the
    original template, and assembles the rows into a DataFrame.

Strings are embedded as List Char (one entry per Unicode code point, matching
Python's len and indexing on str).  External collaborators are embedded at
their interfaces, restricted to the fragments the source exercises:
  * pandas DataFrames become a column-list plus rows of (name, value) pairs;
    indexing a missing column raises KeyError naming the column.
  * Python str.format is embedded for brace-delimited replacement fields
    with anonymous auto-numbered names, explicit numeric indices, or plain
    named keys, and format specs "" / "s" / "d" (the only ones core.py
    itself produces or its templates use); doubled-brace escapes,
    conversions and nested specs are outside the fragment.
  * re.sub is embedded for the one regular expression core.py builds.
  * glob becomes a match over a supplied list of existing paths, with '*'
    matching any run of non-separator characters.
  * the parse library becomes a backtracking matcher: untyped fields match
    one-or-more characters lazily, ":d" fields match a digit run greedily
    and convert to an integer.
-/

deriving instance DecidableEq for Except

namespace Hallmark

/-- Strings are modelled as lists of characters (Python str, len = length). -/
abbrev Str := List Char

/-- Scalar values flowing through the system: Python ints and strs as used by
core.py (format arguments, parsed field values, DataFrame cells). -/
inductive Val where
  | int : Int → Val
  | str : Str → Val
deriving DecidableEq, Repr

/-- Errors raised by the embedded Python fragments: KeyError carries the
missing key (as e.args[0] does), ValueError and IndexError carry nothing
relevant to core.py. -/
inductive PyErr where
  | keyError : Str → PyErr
  | valueError : PyErr
  | indexError : PyErr
deriving DecidableEq, Repr

/-- First-match association-list lookup, the embedding of Python dict
indexing for the per-call keyword-binding dict and for row field access. -/
def lookupV (k : Str) : List (Str × Val) → Option Val
  | [] => none
  | (k', v) :: t => if k = k' then some v else lookupV k t

/-- A pandas DataFrame, restricted to the shape core.py builds: a list of
column names and a list of rows, each row a list of (column, value) pairs. -/
structure DataFrame where
  cols : List Str
  rows : List (List (Str × Val))
deriving DecidableEq, Repr

/-- A keyword-argument value accepted by filter: a scalar, or a tuple/list
of alternatives. -/
inductive FilterVal where
  | scalar : Val → FilterVal
  | coll : List Val → FilterVal
deriving DecidableEq, Repr

/-- Per-row, per-constraint test: self[k].isin(v) for a tuple/list value,
self[k] == v for a scalar (core.py lines 46-49).  A missing cell behaves
like pandas NaN: both comparisons yield False. -/
def rowTest (row : List (Str × Val)) (k : Str) (fv : FilterVal) : Bool :=
  match lookupV k row with
  | none => false
  | some x =>
    match fv with
    | .scalar v => x = v
    | .coll vs => x ∈ vs

/-- Message of the KeyError pandas raises when a constraint names a column
absent from the frame. -/
def keyErrMsg (k : Str) : Str := "KeyError: ".toList ++ k

/-- The mask-accumulation loop of filter (core.py lines 45-49): starting from
an all-false mask, OR in each constraint's per-row test; indexing an unknown
column aborts with the KeyError pandas raises for it. -/
def filterMask (df : DataFrame) : List (Str × FilterVal) → List Bool → Except Str (List Bool)
  | [], mask => .ok mask
  | (k, v) :: cs, mask =>
    if k ∈ df.cols then
      filterMask df cs (List.zipWith or mask (df.rows.map (fun r => rowTest r k v)))
    else
      .error (keyErrMsg k)

/-- The filter function core.py monkey-patches onto pandas DataFrames
(lines 24-50): build the OR-combined boolean mask over all keyword
constraints, then keep exactly the rows whose mask entry is true. -/
def filterDF (df : DataFrame) (cs : List (Str × FilterVal)) : Except Str DataFrame :=
  match filterMask df cs (df.rows.map (fun _ => false)) with
  | .error e => .error e
  | .ok mask => .ok ⟨df.cols, (df.rows.zip mask).filterMap (fun p => if p.2 then some p.1 else none)⟩

/-! ### Decimal rendering of integers (Python str(int)) -/

/-- Decimal digits of a positive number, most significant first; the fuel
argument only drives structural recursion and is irrelevant once it is at
least the number of digits. -/
def natDigitsAux : Nat → Nat → Str
  | 0, _ => []
  | _ + 1, 0 => []
  | fuel + 1, n => natDigitsAux fuel (n / 10) ++ [Char.ofNat ('0'.toNat + n % 10)]

/-- Decimal rendering of a natural number, as Python str produces it. -/
def natRender (n : Nat) : Str := if n = 0 then ['0'] else natDigitsAux (n + 1) n

/-- Decimal rendering of an integer, as Python str produces it. -/
def intRender : Int → Str
  | .ofNat n => natRender n
  | .negSucc m => '-' :: natRender (m + 1)

/-- Numeric value of a digit string (used for explicit positional field
indices and for the parse collaborator's ":d" conversion). -/
def natOfDigits (s : Str) : Nat :=
  s.foldl (fun a c => a * 10 + (c.toNat - '0'.toNat)) 0

/-! ### The str.format collaborator (pattern.format(*args, **kwargs)) -/

/-- Default rendering of a value substituted with an empty format spec. -/
def valRender : Val → Str
  | .str s => s
  | .int n => intRender n

/-- Formatting one value under a format spec.  The embedded fragment covers
the specs occurring in this system: empty, "s" (strings only) and "d"
(integers only); anything else raises ValueError, as CPython does for a
mismatched or unknown format code. -/
def formatVal : Val → Str → Except PyErr Str
  | v, [] => .ok (valRender v)
  | .str s, ['s'] => .ok s
  | .int n, ['d'] => .ok (intRender n)
  | _, _ => .error .valueError

/-- Field-name resolution of str.format: an empty name is the next
auto-numbered positional argument, an all-digit name is an explicit
positional index, anything else is a keyword lookup whose failure raises
KeyError carrying the name. -/
def fieldVal (args : List Val) (kwargs : List (Str × Val)) (nm : Str) (auto : Nat) :
    Except PyErr Val :=
  if nm = [] then
    match args.get? auto with
    | some v => .ok v
    | none => .error .indexError
  else if nm.all Char.isDigit then
    match args.get? (natOfDigits nm) with
    | some v => .ok v
    | none => .error .indexError
  else
    match lookupV nm kwargs with
    | some v => .ok v
    | none => .error (.keyError nm)

/-- Scanner state of the str.format embedding: in literal text, inside a
field name, or inside a format spec. -/
inductive FmtState where
  | scan
  | name : Str → FmtState
  | spec : Str → Str → FmtState
deriving DecidableEq, Repr

/-- Character-by-character embedding of str.format on the modelled fragment:
literal text is copied, brace-delimited fields are resolved left to right
and the first failing field aborts with its error (KeyError names the key);
an unterminated field or a stray closing brace raises ValueError.
Doubled-brace escapes, conversions and nested specs are outside the
fragment. -/
def fmtGo (args : List Val) (kwargs : List (Str × Val)) : Str → FmtState → Nat → Except PyErr Str
  | [], .scan, _ => .ok []
  | [], _, _ => .error .valueError
  | c :: t, .scan, auto =>
    if c = '{' then fmtGo args kwargs t (.name []) auto
    else if c = '}' then .error .valueError
    else
      match fmtGo args kwargs t .scan auto with
      | .ok out => .ok (c :: out)
      | .error e => .error e
  | c :: t, .name nm, auto =>
    if c = '}' then
      match fieldVal args kwargs nm auto with
      | .error e => .error e
      | .ok v =>
        match formatVal v [] with
        | .error e => .error e
        | .ok s =>
          match fmtGo args kwargs t .scan (if nm = [] then auto + 1 else auto) with
          | .ok out => .ok (s ++ out)
          | .error e => .error e
    else if c = ':' then fmtGo args kwargs t (.spec nm []) auto
    else fmtGo args kwargs t (.name (nm ++ [c])) auto
  | c :: t, .spec nm sp, auto =>
    if c = '}' then
      match fieldVal args kwargs nm auto with
      | .error e => .error e
      | .ok v =>
        match formatVal v sp with
        | .error e => .error e
        | .ok s =>
          match fmtGo args kwargs t .scan (if nm = [] then auto + 1 else auto) with
          | .ok out => .ok (s ++ out)
          | .error e => .error e
    else fmtGo args kwargs t (.spec nm (sp ++ [c])) auto

/-- pattern.format(*args, **kwargs) on the modelled fragment. -/
def formatStr (s : Str) (args : List Val) (kwargs : List (Str × Val)) : Except PyErr Str :=
  fmtGo args kwargs s .scan 0

/-! ### The re.sub rewrite (core.py line 110) -/

/-- Lookahead of the lazy tail of the rewrite regex: from here, is there a
closing brace, with no newline before it (re's '.' does not cross
newlines)?  This is exactly when the regex's ":?.*?\x7d" tail can match. -/
def scanClose : Str → Option Str
  | [] => none
  | c :: t => if c = '}' then some t else if c = '\n' then none else scanClose t

/-- Boolean prefix test on character lists. -/
def isPre : Str → Str → Bool
  | [], _ => true
  | _ :: _, [] => false
  | a :: as, b :: bs => a = b && isPre as bs

/-- Scanner state of the re.sub embedding: scanning for the next match, or
inside a replaced match with n characters of the key left to consume before
skipping to the closing brace. -/
inductive SubState where
  | scan
  | skipn : Nat → SubState
deriving DecidableEq, Repr

/-- Global replacement for the one regex core.py builds from an unbound key
k (in Python notation, backslash-brace k colon-question dot-star-question
backslash-brace, replaced by brace k colon s brace): scanning left to
right, a match starts at every '{' followed by the characters of k with a
closing brace reachable after them, covers everything up to the first such
closing brace, and is replaced; scanning resumes after the match, so every
non-overlapping occurrence is rewritten in one call. -/
def reSubGo (k : Str) : Str → SubState → Str
  | [], _ => []
  | _ :: t, .skipn (j + 1) => reSubGo k t (.skipn j)
  | c :: t, .skipn 0 => if c = '}' then reSubGo k t .scan else reSubGo k t (.skipn 0)
  | c :: t, .scan =>
    if c = '{' && isPre k t && (scanClose (t.drop k.length)).isSome then
      ('{' :: k ++ ':' :: 's' :: ['}']) ++ reSubGo k t (.skipn k.length)
    else c :: reSubGo k t .scan

/-- re.sub of the key-k rewrite regex over a whole pattern string. -/
def reSub (k : Str) (s : Str) : Str := reSubGo k s .scan

/-! ### Structured templates and the parse collaborator -/

/-- A parsed naming template: literal characters and named fields, each
field carrying its (possibly empty) format spec. -/
inductive Item where
  | lit : Char → Item
  | field : Str → Str → Item
deriving DecidableEq, Repr

/-- Scanner state for reading a template string into items. -/
inductive TplState where
  | scan
  | name : Str → TplState
  | spec : Str → Str → TplState
deriving DecidableEq, Repr

/-- Reading a template string into its items, with the same field syntax the
format scanner uses; none on an unterminated field or stray closing brace
(outside the fragment the parse collaborator is modelled on). -/
def tplGo : Str → TplState → Option (List Item)
  | [], .scan => some []
  | [], _ => none
  | c :: t, .scan =>
    if c = '{' then tplGo t (.name [])
    else if c = '}' then none
    else (tplGo t .scan).map (fun its => .lit c :: its)
  | c :: t, .name nm =>
    if c = '}' then (tplGo t .scan).map (fun its => .field nm [] :: its)
    else if c = ':' then tplGo t (.spec nm [])
    else tplGo t (.name (nm ++ [c]))
  | c :: t, .spec nm sp =>
    if c = '}' then (tplGo t .scan).map (fun its => .field nm sp :: its)
    else tplGo t (.spec nm (sp ++ [c]))

/-- The items of a template string. -/
def tplOfString (fmt : Str) : Option (List Item) := tplGo fmt .scan

/-- Rendering of a field's spec part: nothing for an empty spec, otherwise a
colon followed by the spec. -/
def specRender (sp : Str) : Str := if sp = [] then [] else ':' :: sp

/-- Rendering one item back to template text. -/
def renderItem : Item → Str
  | .lit c => [c]
  | .field n sp => '{' :: (n ++ specRender sp) ++ ['}']

/-- Rendering a list of items back to template text. -/
def render : List Item → Str
  | [] => []
  | it :: t => renderItem it ++ render t

/-- The field names of a template, in order of occurrence. -/
def namesOf (its : List Item) : List Str :=
  its.filterMap (fun it => match it with | .field n _ => some n | .lit _ => none)

/-- Effect of one re.sub rewrite with key k on a template's items: every
field whose name extends k collapses to a field named k with spec "s". -/
def rewriteK (k : Str) (its : List Item) : List Item :=
  its.map (fun it =>
    match it with
    | .field n sp => if isPre k n then .field k ['s'] else .field n sp
    | .lit c => .lit c)

/-- Characters allowed in a field name (Python identifier characters). -/
def nameChar (c : Char) : Bool := c.isAlphanum || c = '_'

/-- Well-formed field name: nonempty, identifier characters only. -/
def wfName (n : Str) : Bool := !n.isEmpty && n.all nameChar

/-- Well-formed template item: names are identifiers, specs alphanumeric,
literal characters are not braces or newlines. -/
def wfItem : Item → Bool
  | .lit c => !(c = '{' || c = '}' || c = '\n')
  | .field n sp => wfName n && sp.all Char.isAlphanum

/-- Well-formed template. -/
def wfItems (its : List Item) : Bool := its.all wfItem

/-- The split candidates an untyped field can consume, lazily ordered:
nonempty chunks by increasing length, mirroring the parse collaborator's
non-greedy one-or-more-characters match. -/
def splitsAny : Str → List (Str × Str)
  | [] => []
  | c :: s => ([c], s) :: (splitsAny s).map (fun p => (c :: p.1, p.2))

/-- The split candidates a ":d" field can consume, greedily ordered: the
digit run prefixes by decreasing length, mirroring the collaborator's
greedy digit-run match (modelled unsigned). -/
def splitsD (s : Str) : List (Str × Str) :=
  let ds := s.takeWhile Char.isDigit
  (List.range ds.length).map (fun i => (s.take (ds.length - i), s.drop (ds.length - i)))

/-- Typed value a field recovers from its consumed chunk: ":d" converts the
digit run to an integer, everything else stays text. -/
def mkVal (sp : Str) (chunk : Str) : Val :=
  if sp = ['d'] then Val.int (natOfDigits chunk) else Val.str chunk

/-- The parse collaborator (parse.compile(fmt).parse(f)) on a structured
template: full-string backtracking match, literals must agree exactly,
fields consume candidate chunks in their match order; on success the named,
typed field values are returned in template order. -/
def parseGo : List Item → Str → Option (List (Str × Val))
  | [], s => if s = [] then some [] else none
  | .lit c :: tpl, s =>
    match s with
    | [] => none
    | d :: s' => if c = d then parseGo tpl s' else none
  | .field n sp :: tpl, s =>
    (if sp = ['d'] then splitsD s else splitsAny s).findSome?
      (fun p => (parseGo tpl p.2).map (fun r => (n, mkVal sp p.1) :: r))

/-! ### The glob collaborator -/

/-- Suffixes of a string reachable by deleting a (possibly empty) run of
non-separator characters from the front: the strings a '*' can leave
behind. -/
def nonSlashSuffixes : Str → List Str
  | [] => [[]]
  | c :: t => (c :: t) :: (if c = '/' then [] else nonSlashSuffixes t)

/-- Glob-style match of a pattern against a path: '*' matches any run of
non-separator characters, '?' one non-separator character, anything else
itself.  Character classes and the hidden-file rule are outside the
fragment core.py exercises. -/
def globMatch : Str → Str → Bool
  | [], s => s.isEmpty
  | '*' :: p, s => (nonSlashSuffixes s).any (fun s' => globMatch p s')
  | '?' :: p, s =>
    match s with
    | [] => false
    | c :: s' => !(c = '/') && globMatch p s'
  | c :: p, s =>
    match s with
    | [] => false
    | d :: s' => c = d && globMatch p s'

/-! ### Lexicographic path order and sorting (Python sorted on str) -/

/-- Python's string comparison: lexicographic by code point. -/
def lexLe : Str → Str → Bool
  | [], _ => true
  | _ :: _, [] => false
  | a :: as, b :: bs => if a < b then true else if b < a then false else lexLe as bs

/-- The path ordering as a relation, for the sorting lemmas. -/
def lexRel (a b : Str) : Prop := lexLe a b = true

instance : DecidableRel lexRel := fun a b => inferInstanceAs (Decidable (lexLe a b = true))

/-- sorted(...) on a list of paths.  Any sorting algorithm yields Python's
output here, because the order is total and antisymmetric, so the sorted
permutation is unique. -/
def sortStr (l : List Str) : List Str := List.insertionSort lexRel l

/-! ### The ParaFrame builder (core.py lines 57-136) -/

/-- One run of the retry loop of ParaFrame (core.py lines 100-111), as a
recursion on the remaining iteration budget: try to substitute the pattern;
on success stop with the break flag true; on KeyError rewrite the failed
key's placeholders to the brace-key-colon-s form, bind the key to the
wildcard, and retry; any other formatting error propagates uncaught; an
exhausted budget
leaves the loop with the break flag false and the pattern as it stands. -/
def resolveLoop (args : List Val) : Nat → Str → List (Str × Val) →
    Except PyErr (Str × List (Str × Val) × Bool)
  | 0, pattern, kwargs => .ok (pattern, kwargs, false)
  | fuel + 1, pattern, kwargs =>
    match formatStr pattern args kwargs with
    | .ok p => .ok (p, kwargs, true)
    | .error (.keyError k) => resolveLoop args fuel (reSub k pattern) (kwargs ++ [(k, Val.str ['*'])])
    | .error e => .error e

/-- The filesystem-enumeration collaborator plus sorting (core.py line 114):
the existing paths matching the pattern, in sorted order.  The filesystem
is supplied as the list of existing paths. -/
def globFiles (pattern : Str) (fs : List Str) : List Str :=
  sortStr (fs.filter (fun f => globMatch pattern f))

/-- The key of the path column. -/
def pathKey : Str := "path".toList

/-- The diagnostic core.py prints for a path the parser rejects. -/
def failMsg (f : Str) : Str := "Failed to parse \"".toList ++ f ++ ['"']

/-- The row dict built for a successfully parsed path. -/
def mkRow (f : Str) (r : List (Str × Val)) : List (Str × Val) := (pathKey, Val.str f) :: r

/-- One step of the per-file loop of ParaFrame (core.py lines 130-135),
prepending path f's contribution to the diagnostics and rows of the later
paths: a path the parser rejects contributes a diagnostic and no row; a
parsed path contributes its row. -/
def buildStep (it? : Option (List Item)) (f : Str) (lr : List Str × List (List (Str × Val))) :
    List Str × List (List (Str × Val)) :=
  match it?.bind (fun its => parseGo its f) with
  | none => (failMsg f :: lr.1, lr.2)
  | some r => (lr.1, mkRow f r :: lr.2)

/-- The per-file loop of ParaFrame (core.py lines 129-135): walk the matched
paths in order, collecting the diagnostics and the rows, each in path
order. -/
def buildRows (it? : Option (List Item)) : List Str → List Str × List (List (Str × Val))
  | [] => ([], [])
  | f :: fs => buildStep it? f (buildRows it? fs)

/-- pd.DataFrame(l) on a list of uniform row dicts: columns are the first
row's keys (an empty list yields a frame with no columns). -/
def mkDF (rows : List (List (Str × Val))) : DataFrame :=
  ⟨(rows.head?.map (fun r => r.map Prod.fst)).getD [], rows⟩

/-- The ParaFrame builder (core.py lines 57-136) over a filesystem given as
the list of its existing paths: resolve the pattern within len(fmt) // 3
retries, enumerate and sort the matching paths, re-parse each against the
original template, and collect the surviving rows into a DataFrame.
Returns the printed parse diagnostics alongside the frame; a formatting
error other than KeyError escapes to the caller.  The debug flag of the
source only prints extra diagnostics and changes no data flow, so it is
not a parameter of the embedding. -/
def ParaFrame (fmt : Str) (args : List Val) (kwargs : List (Str × Val)) (fs : List Str) :
    Except PyErr (List Str × DataFrame) :=
  match resolveLoop args (fmt.length / 3) fmt kwargs with
  | .error e => .error e
  | .ok (pattern, _, _) =>
    .ok ((buildRows (tplOfString fmt) (globFiles pattern fs)).1,
      mkDF (buildRows (tplOfString fmt) (globFiles pattern fs)).2)

/-- The path-column entry of a row, when it is a string. -/
def getPath (row : List (Str × Val)) : Option Str :=
  match lookupV pathKey row with
  | some (Val.str f) => some f
  | _ => none

/-- The path column of a frame. -/
def dfPaths (df : DataFrame) : List Str := df.rows.filterMap getPath

/-! ### Lemmas about the filter component -/

theorem zip_mask_filter {α : Type} (l : List α) (p : α → Bool) :
    (l.zip (l.map p)).filterMap (fun q => if q.2 then some q.1 else none) = l.filter p := by
  induction l with
  | nil => rfl
  | cons a t ih =>
    by_cases h : p a <;> simp [List.filter_cons, h, ih]

theorem zipWith_or_map {α : Type} (l : List α) (f g : α → Bool) :
    List.zipWith or (l.map f) (l.map g) = l.map (fun x => f x || g x) := by
  induction l with
  | nil => rfl
  | cons a t ih => simp [ih]

theorem filterMask_ok (df : DataFrame) (cs : List (Str × FilterVal))
    (h : ∀ c ∈ cs, c.1 ∈ df.cols) (g : List (Str × Val) → Bool) :
    filterMask df cs (df.rows.map g)
      = .ok (df.rows.map (fun r => g r || cs.any (fun c => rowTest r c.1 c.2))) := by
  induction cs generalizing g with
  | nil => simp [filterMask]
  | cons c cs ih =>
    obtain ⟨k, v⟩ := c
    have hk : k ∈ df.cols := h (k, v) (List.mem_cons_self _ _)
    have hcs : ∀ c ∈ cs, c.1 ∈ df.cols := fun c hc => h c (List.mem_cons_of_mem _ hc)
    simp only [filterMask, if_pos hk, zipWith_or_map]
    rw [ih hcs (fun r => g r || rowTest r k v)]
    simp [Bool.or_assoc]

theorem filterMask_err (df : DataFrame) (cs : List (Str × FilterVal))
    (h : ∃ c ∈ cs, c.1 ∉ df.cols) :
    ∃ k fv, (k, fv) ∈ cs ∧ k ∉ df.cols ∧ ∀ m, filterMask df cs m = .error (keyErrMsg k) := by
  induction cs with
  | nil => obtain ⟨c, hc, -⟩ := h; exact absurd hc (List.not_mem_nil c)
  | cons c cs ih =>
    obtain ⟨k, v⟩ := c
    by_cases hk : k ∈ df.cols
    · have : ∃ c ∈ cs, c.1 ∉ df.cols := by
        obtain ⟨c', hc', hout⟩ := h
        rcases List.mem_cons.mp hc' with heq | hmem
        · exact absurd hk (by simpa [heq] using hout)
        · exact ⟨c', hmem, hout⟩
      obtain ⟨k', fv', hmem, hout, herr⟩ := ih this
      exact ⟨k', fv', List.mem_cons_of_mem _ hmem, hout,
        fun m => by simp only [filterMask, if_pos hk]; exact herr _⟩
    · exact ⟨k, v, List.mem_cons_self _ _, hk,
        fun m => by simp only [filterMask, if_neg hk]⟩

/-- C1: filtering a table by a set of keyword constraints keeps exactly the
rows satisfying at least one constraint (logical OR across constraints),
where a tuple/list constraint is satisfied by membership and a scalar
constraint by exact equality; with no constraints the mask stays all-false
and the result has no rows. -/
theorem filter_or_semantics (df : DataFrame) (cs : List (Str × FilterVal))
    (h : ∀ c ∈ cs, c.1 ∈ df.cols) :
    filterDF df cs
      = .ok ⟨df.cols, df.rows.filter (fun r => cs.any (fun c => rowTest r c.1 c.2))⟩ := by
  unfold filterDF
  rw [filterMask_ok df cs h (fun _ => false)]
  simp only [Bool.false_or, zip_mask_filter]

/-- Witness for C1 at a concrete table: constraints x = 1 and x ∈ {2, 3}
keep the rows with x = 1 or x = 2 and drop x = 5 (OR semantics), and the
same table with no constraints filters to no rows. -/
theorem filter_or_semantics_witness :
    filterDF ⟨["x".toList], [[("x".toList, Val.int 1)], [("x".toList, Val.int 2)], [("x".toList, Val.int 5)]]⟩
        [("x".toList, FilterVal.scalar (Val.int 1)), ("x".toList, FilterVal.coll [Val.int 2, Val.int 3])]
      = .ok ⟨["x".toList], [[("x".toList, Val.int 1)], [("x".toList, Val.int 2)]]⟩ ∧
    filterDF ⟨["x".toList], [[("x".toList, Val.int 1)], [("x".toList, Val.int 2)], [("x".toList, Val.int 5)]]⟩ []
      = .ok ⟨["x".toList], []⟩ := by
  constructor
  · rw [filter_or_semantics _ _ (by decide)]; decide
  · rw [filter_or_semantics _ _ (by decide)]; decide

/-- C9: a constraint naming a column absent from the table makes filter fail
with the KeyError pandas raises for indexing that column, an error that
names the unknown column; it neither returns an all-false (empty) result
nor fails anonymously. -/
theorem filter_unknown_column (df : DataFrame) (cs : List (Str × FilterVal))
    (h : ∃ c ∈ cs, c.1 ∉ df.cols) :
    ∃ k fv, (k, fv) ∈ cs ∧ k ∉ df.cols ∧ filterDF df cs = .error (keyErrMsg k) := by
  obtain ⟨k, fv, hmem, hout, herr⟩ := filterMask_err df cs h
  refine ⟨k, fv, hmem, hout, ?_⟩
  unfold filterDF
  rw [herr]

/-- Witness for C9: filtering a one-column table by an absent column y
fails with the KeyError naming y. -/
theorem filter_unknown_column_witness :
    ∃ k fv, (k, fv) ∈ [("y".toList, FilterVal.scalar (Val.int 1))] ∧
      k ∉ (⟨["x".toList], [[("x".toList, Val.int 1)]]⟩ : DataFrame).cols ∧
      filterDF ⟨["x".toList], [[("x".toList, Val.int 1)]]⟩ [("y".toList, FilterVal.scalar (Val.int 1))]
        = .error (keyErrMsg k) :=
  filter_unknown_column _ _ (by decide)

/-! ### Lemmas about the re.sub rewrite on rendered templates -/

theorem nameChar_spec {c : Char} (h : nameChar c = true) :
    c ≠ '{' ∧ c ≠ '}' ∧ c ≠ ':' ∧ c ≠ '\n' ∧ c ≠ '*' ∧ c ≠ '/' := by
  refine ⟨?_, ?_, ?_, ?_, ?_, ?_⟩ <;> (rintro rfl; revert h; decide)

theorem alnum_spec {c : Char} (h : c.isAlphanum = true) :
    c ≠ '{' ∧ c ≠ '}' ∧ c ≠ ':' ∧ c ≠ '\n' := by
  refine ⟨?_, ?_, ?_, ?_⟩ <;> (rintro rfl; revert h; decide)

theorem isPre_length : ∀ {k n : Str}, isPre k n = true → k.length ≤ n.length := by
  intro k
  induction k with
  | nil => intro n _; simp
  | cons a as ih =>
    intro n h
    cases n with
    | nil => simp [isPre] at h
    | cons b bs =>
      simp only [isPre, Bool.and_eq_true] at h
      have := ih h.2
      simp only [List.length_cons]
      omega

theorem isPre_append {k n : Str} (m : Str) (h : isPre k n = true) :
    isPre k (n ++ m) = true := by
  induction k generalizing n with
  | nil => simp [isPre]
  | cons a as ih =>
    cases n with
    | nil => simp [isPre] at h
    | cons b bs =>
      simp only [isPre, Bool.and_eq_true] at h ⊢
      exact ⟨h.1, ih h.2⟩

theorem isPre_append_name {k : Str} (hk : k.all nameChar = true) (y : Char)
    (hy : nameChar y = false) : ∀ {n ys : Str}, isPre k (n ++ y :: ys) = true → isPre k n = true := by
  induction k with
  | nil => intro n ys _; simp [isPre]
  | cons a as ih =>
    intro n ys h
    simp only [List.all_cons, Bool.and_eq_true] at hk
    cases n with
    | nil =>
      simp only [List.nil_append, isPre, Bool.and_eq_true, decide_eq_true_eq] at h
      rw [h.1] at hk
      rw [hk.1] at hy
      cases hy
    | cons b bs =>
      simp only [List.cons_append, isPre, Bool.and_eq_true] at h ⊢
      exact ⟨h.1, ih hk.2 h.2⟩

theorem scanClose_append {xs : Str} (ys : Str) (h : ∀ c ∈ xs, c ≠ '}' ∧ c ≠ '\n') :
    scanClose (xs ++ '}' :: ys) = some ys := by
  induction xs with
  | nil => simp [scanClose]
  | cons c t ih =>
    have hc := h c (List.mem_cons_self _ _)
    rw [List.cons_append]
    unfold scanClose
    rw [if_neg hc.1, if_neg hc.2]
    exact ih (fun d hd => h d (List.mem_cons_of_mem _ hd))

theorem reSubGo_skipn (k : Str) : ∀ (j : Nat) (s : Str), j ≤ s.length →
    reSubGo k s (.skipn j) = reSubGo k (s.drop j) (.skipn 0) := by
  intro j
  induction j with
  | zero => intro s _; simp
  | succ j ih =>
    intro s hs
    cases s with
    | nil => simp at hs
    | cons c t =>
      rw [show reSubGo k (c :: t) (.skipn (j + 1)) = reSubGo k t (.skipn j) from rfl]
      simp only [List.length_cons] at hs
      rw [ih t (by omega)]
      rfl

theorem reSubGo_skip0 (k : Str) {xs : Str} (ys : Str) (h : ∀ c ∈ xs, c ≠ '}') :
    reSubGo k (xs ++ '}' :: ys) (.skipn 0) = reSubGo k ys .scan := by
  induction xs with
  | nil => simp [reSubGo]
  | cons c t ih =>
    have hc := h c (List.mem_cons_self _ _)
    rw [List.cons_append,
      show reSubGo k (c :: (t ++ '}' :: ys)) (.skipn 0)
          = if c = '}' then reSubGo k (t ++ '}' :: ys) .scan else reSubGo k (t ++ '}' :: ys) (.skipn 0)
        from rfl,
      if_neg hc]
    exact ih (fun d hd => h d (List.mem_cons_of_mem _ hd))

theorem reSubGo_scan_cons (k : Str) {c : Char} (t : Str) (h : c ≠ '{') :
    reSubGo k (c :: t) .scan = c :: reSubGo k t .scan := by
  rw [show reSubGo k (c :: t) .scan
      = if c = '{' && isPre k t && (scanClose (t.drop k.length)).isSome then
          ('{' :: k ++ ':' :: 's' :: ['}']) ++ reSubGo k t (.skipn k.length)
        else c :: reSubGo k t .scan from rfl]
  simp [h]

theorem reSubGo_scan_append (k : Str) {xs : Str} (ys : Str) (h : ∀ c ∈ xs, c ≠ '{') :
    reSubGo k (xs ++ ys) .scan = xs ++ reSubGo k ys .scan := by
  induction xs with
  | nil => rfl
  | cons c t ih =>
    rw [List.cons_append, reSubGo_scan_cons k _ (h c (List.mem_cons_self _ _)),
      ih (fun d hd => h d (List.mem_cons_of_mem _ hd))]
    rfl

theorem reSubGo_scan_eq (k : Str) (c : Char) (t : Str) :
    reSubGo k (c :: t) .scan
      = if c = '{' && isPre k t && (scanClose (t.drop k.length)).isSome then
          ('{' :: k ++ ':' :: 's' :: ['}']) ++ reSubGo k t (.skipn k.length)
        else c :: reSubGo k t .scan := rfl

theorem name_mem {n : Str} (hn : n.all nameChar = true) :
    ∀ c ∈ n, c ≠ '{' ∧ c ≠ '}' ∧ c ≠ '\n' := by
  intro c hc
  have := nameChar_spec (List.all_eq_true.mp hn c hc)
  exact ⟨this.1, this.2.1, this.2.2.2.1⟩

theorem specRender_mem {sp : Str} (hsp : sp.all Char.isAlphanum = true) :
    ∀ c ∈ specRender sp, c ≠ '{' ∧ c ≠ '}' ∧ c ≠ '\n' := by
  intro c hc
  cases sp with
  | nil => simp [specRender] at hc
  | cons a t =>
    rw [show specRender (a :: t) = ':' :: (a :: t) from rfl] at hc
    rcases List.mem_cons.mp hc with rfl | hmem
    · exact ⟨by decide, by decide, by decide⟩
    · have := alnum_spec (List.all_eq_true.mp hsp c hmem)
      exact ⟨this.1, this.2.1, this.2.2.2⟩

theorem isPre_field {k n sp : Str} (tail : Str) (hk : k.all nameChar = true)
    (h : isPre k (n ++ (specRender sp ++ '}' :: tail)) = true) : isPre k n = true := by
  cases sp with
  | nil => exact isPre_append_name hk '}' (by decide) (by simpa [specRender] using h)
  | cons a t =>
    rw [show specRender (a :: t) = ':' :: (a :: t) from rfl] at h
    exact isPre_append_name hk ':' (by decide) (by simpa using h)

/-- Effect of one re.sub rewrite on a rendered well-formed template: every
field whose name extends the key collapses, at every occurrence, to the
wildcard-ready field brace-key-colon-s-brace; everything else is copied. -/
theorem reSub_render (k : Str) (its : List Item) (hk : wfName k = true)
    (hits : wfItems its = true) : reSub k (render its) = render (rewriteK k its) := by
  have hkAll : k.all nameChar = true := by
    simp only [wfName, Bool.and_eq_true] at hk; exact hk.2
  unfold reSub
  induction its with
  | nil => rfl
  | cons it rest ih =>
    have hitem : wfItem it = true := by
      simp only [wfItems, List.all_cons, Bool.and_eq_true] at hits; exact hits.1
    have hrest : wfItems rest = true := by
      simp only [wfItems, List.all_cons, Bool.and_eq_true] at hits; exact hits.2
    have ihr := ih hrest
    cases it with
    | lit c =>
      have hc : c ≠ '{' := by
        intro hcontra
        rw [hcontra] at hitem
        revert hitem; decide
      rw [show render (.lit c :: rest) = c :: render rest by simp [render, renderItem],
        reSubGo_scan_cons k _ hc, ihr]
      rfl
    | field n sp =>
      have hn : n.all nameChar = true := by
        simp only [wfItem, wfName, Bool.and_eq_true] at hitem
        exact hitem.1.2
      have hsp : sp.all Char.isAlphanum = true := by
        simp only [wfItem, Bool.and_eq_true] at hitem
        exact hitem.2
      have hT : render (.field n sp :: rest)
          = '{' :: (n ++ (specRender sp ++ '}' :: render rest)) := by
        simp [render, renderItem, List.append_assoc]
      rw [hT, reSubGo_scan_eq]
      by_cases hpre : isPre k n = true
      · have hlen : k.length ≤ n.length := isPre_length hpre
        have hpreT : isPre k (n ++ (specRender sp ++ '}' :: render rest)) = true :=
          isPre_append _ hpre
        have hdrop : (n ++ (specRender sp ++ '}' :: render rest)).drop k.length
            = (n.drop k.length ++ specRender sp) ++ '}' :: render rest := by
          rw [List.drop_append_of_le_length hlen, List.append_assoc]
        have hscan : scanClose ((n ++ (specRender sp ++ '}' :: render rest)).drop k.length)
            = some (render rest) := by
          rw [hdrop]
          refine scanClose_append _ (fun c hc => ?_)
          rcases List.mem_append.mp hc with hmem | hmem
          · have := name_mem hn c (List.mem_of_mem_drop hmem)
            exact ⟨this.2.1, this.2.2⟩
          · have := specRender_mem hsp c hmem
            exact ⟨this.2.1, this.2.2⟩
        rw [if_pos (by simp [hpreT, hscan])]
        have hskip : reSubGo k (n ++ (specRender sp ++ '}' :: render rest)) (.skipn k.length)
            = reSubGo k (render rest) .scan := by
          rw [reSubGo_skipn k k.length _ (by simp; omega), hdrop,
            reSubGo_skip0 k _ (fun c hc => ?_)]
          rcases List.mem_append.mp hc with hmem | hmem
          · exact (name_mem hn c (List.mem_of_mem_drop hmem)).2.1
          · exact (specRender_mem hsp c hmem).2.1
        rw [hskip, ihr]
        simp [rewriteK, hpre, render, renderItem, specRender]
      · have hpreT : isPre k (n ++ (specRender sp ++ '}' :: render rest)) = false := by
          rcases Bool.eq_false_or_eq_true (isPre k (n ++ (specRender sp ++ '}' :: render rest)))
            with h | h
          · exact absurd (isPre_field _ hkAll h) hpre
          · exact h
        rw [if_neg (by simp [hpreT])]
        have hxs : reSubGo k (n ++ (specRender sp ++ '}' :: render rest)) .scan
            = (n ++ specRender sp) ++ reSubGo k ('}' :: render rest) .scan := by
          rw [show n ++ (specRender sp ++ '}' :: render rest)
              = (n ++ specRender sp) ++ '}' :: render rest by simp [List.append_assoc]]
          refine reSubGo_scan_append k _ (fun c hc => ?_)
          rcases List.mem_append.mp hc with hmem | hmem
          · exact (name_mem hn c hmem).1
          · exact (specRender_mem hsp c hmem).1
        rw [hxs, reSubGo_scan_cons k _ (by decide), ihr]
        have hpre' : isPre k n = false := by
          rcases Bool.eq_false_or_eq_true (isPre k n) with h | h
          · exact absurd h hpre
          · exact h
        simp [rewriteK, hpre', render, renderItem, List.append_assoc]

/-- C10: one retry's rewrite for an unbound key k replaces, in one pass,
every segment starting at an open brace followed by the letters of k and
running minimally to the next closing brace: on a well-formed template every
field whose name has k as a (possibly improper) prefix is rewritten, so a
placeholder repeated in the template is wildcarded at all its occurrences
in a single retry, and a distinct placeholder whose name merely extends k
(runner versus run) is collapsed to the brace-k-colon-s-brace form as well,
as the concrete evaluation shows. -/
theorem rewrite_hits_every_occurrence :
    (∀ (k : Str) (its : List Item), wfName k = true → wfItems its = true →
      reSub k (render its) = render (rewriteK k its)) ∧
    reSub "run".toList "data/{run:d}_x{runner:d}_{run:d}".toList
      = "data/{run:s}_x{run:s}_{run:s}".toList := by
  refine ⟨reSub_render, by decide⟩

/-- Witness for C10: applied to the key run and the two-field template
brace-run-colon-d-brace underscore brace-runner-colon-d-brace, both fields
collapse to the brace-run-colon-s-brace form. -/
theorem rewrite_hits_every_occurrence_witness :
    wfName "run".toList = true ∧
    wfItems [Item.field "run".toList ['d'], Item.lit '_', Item.field "runner".toList ['d']] = true ∧
    reSub "run".toList
        (render [Item.field "run".toList ['d'], Item.lit '_', Item.field "runner".toList ['d']])
      = render (rewriteK "run".toList
          [Item.field "run".toList ['d'], Item.lit '_', Item.field "runner".toList ['d']]) :=
  ⟨by decide, by decide,
    rewrite_hits_every_occurrence.1 "run".toList
      [Item.field "run".toList ['d'], Item.lit '_', Item.field "runner".toList ['d']]
      (by decide) (by decide)⟩

/-! ### Lemmas about the parse collaborator and the per-file loop -/

theorem findSome_mem {α β : Type} {f : α → Option β} : ∀ {l : List α} {b : β},
    l.findSome? f = some b → ∃ a ∈ l, f a = some b := by
  intro l
  induction l with
  | nil => intro b h; simp [List.findSome?] at h
  | cons a t ih =>
    intro b h
    cases hfa : f a with
    | some b' =>
      rw [List.findSome?_cons, hfa] at h
      exact ⟨a, List.mem_cons_self _ _, hfa.trans h⟩
    | none =>
      rw [List.findSome?_cons, hfa] at h
      obtain ⟨a', ha', hfa'⟩ := ih h
      exact ⟨a', List.mem_cons_of_mem _ ha', hfa'⟩

theorem parseGo_keys : ∀ (its : List Item) (s : Str) (r : List (Str × Val)),
    parseGo its s = some r → r.map Prod.fst = namesOf its := by
  intro its
  induction its with
  | nil =>
    intro s r h
    unfold parseGo at h
    split at h
    · cases h; rfl
    · cases h
  | cons it tpl ih =>
    cases it with
    | lit c =>
      intro s r h
      cases s with
      | nil => cases h
      | cons d s' =>
        rw [show parseGo (.lit c :: tpl) (d :: s') = if c = d then parseGo tpl s' else none
          from rfl] at h
        by_cases hcd : c = d
        · rw [if_pos hcd] at h
          exact (ih s' r h).trans (by simp [namesOf])
        · rw [if_neg hcd] at h
          cases h
    | field n sp =>
      intro s r h
      unfold parseGo at h
      obtain ⟨p, hp, hsome⟩ := findSome_mem h
      cases hpar : parseGo tpl p.2 with
      | none => rw [hpar] at hsome; cases hsome
      | some r' =>
        rw [hpar] at hsome
        cases hsome
        simp only [List.map_cons, namesOf, List.filterMap_cons]
        rw [show (List.filterMap (fun it => match it with | .field n _ => some n | .lit _ => none) tpl) = namesOf tpl from rfl,
          ← ih p.2 r' hpar]

theorem buildRows_log (it? : Option (List Item)) : ∀ (files : List Str) (f : Str), f ∈ files →
    it?.bind (fun its => parseGo its f) = none → failMsg f ∈ (buildRows it? files).1 := by
  intro files
  induction files with
  | nil => intro f hf; cases hf
  | cons g fs ih =>
    intro f hf hnone
    rcases List.mem_cons.mp hf with rfl | hmem
    · unfold buildRows buildStep
      rw [hnone]
      exact List.mem_cons_self _ _
    · have := ih f hmem hnone
      unfold buildRows buildStep
      cases hg : it?.bind (fun its => parseGo its g) with
      | none => exact List.mem_cons_of_mem _ this
      | some r => exact this

theorem buildRows_row_mem (it? : Option (List Item)) : ∀ (files : List Str) (f : Str), f ∈ files →
    ∀ r, it?.bind (fun its => parseGo its f) = some r → mkRow f r ∈ (buildRows it? files).2 := by
  intro files
  induction files with
  | nil => intro f hf; cases hf
  | cons g fs ih =>
    intro f hf r hsome
    rcases List.mem_cons.mp hf with rfl | hmem
    · unfold buildRows buildStep
      rw [hsome]
      exact List.mem_cons_self _ _
    · have := ih f hmem r hsome
      unfold buildRows buildStep
      cases hg : it?.bind (fun its => parseGo its g) with
      | none => exact this
      | some r' => exact List.mem_cons_of_mem _ this

theorem buildRows_rows_char (it? : Option (List Item)) : ∀ (files : List Str),
    ∀ row ∈ (buildRows it? files).2,
      ∃ f r, f ∈ files ∧ it?.bind (fun its => parseGo its f) = some r ∧ row = mkRow f r := by
  intro files
  induction files with
  | nil => intro row hrow; cases hrow
  | cons g fs ih =>
    intro row hrow
    unfold buildRows buildStep at hrow
    cases hg : it?.bind (fun its => parseGo its g) with
    | none =>
      rw [hg] at hrow
      obtain ⟨f, r, hf, hsome, heq⟩ := ih row hrow
      exact ⟨f, r, List.mem_cons_of_mem _ hf, hsome, heq⟩
    | some r =>
      rw [hg] at hrow
      rcases List.mem_cons.mp hrow with rfl | hmem
      · exact ⟨g, r, List.mem_cons_self _ _, hg, rfl⟩
      · obtain ⟨f, r', hf, hsome, heq⟩ := ih row hmem
        exact ⟨f, r', List.mem_cons_of_mem _ hf, hsome, heq⟩

theorem getPath_mkRow (f : Str) (r : List (Str × Val)) : getPath (mkRow f r) = some f := by
  simp [getPath, mkRow, lookupV]

theorem buildRows_paths (it? : Option (List Item)) : ∀ (files : List Str),
    (buildRows it? files).2.filterMap getPath
      = files.filter (fun f => (it?.bind (fun its => parseGo its f)).isSome) := by
  intro files
  induction files with
  | nil => rfl
  | cons g fs ih =>
    unfold buildRows buildStep
    cases hg : it?.bind (fun its => parseGo its g) with
    | none => simp [List.filter_cons, hg, ih]
    | some r => simp [List.filter_cons, hg, getPath_mkRow, ih]

/-! ### Lemmas about the path order and sorting -/

theorem lexLe_cons_iff {x y : Char} {xs ys : Str} :
    lexLe (x :: xs) (y :: ys) = true ↔ x < y ∨ (x = y ∧ lexLe xs ys = true) := by
  by_cases h1 : x < y
  · simp [lexLe, h1]
  · by_cases h2 : y < x
    · have hne : x ≠ y := ne_of_gt h2
      simp [lexLe, h1, h2, hne]
    · have heq : x = y := le_antisymm (not_lt.mp h2) (not_lt.mp h1)
      simp [lexLe, h1, h2, heq]

theorem lexLe_total : ∀ a b : Str, lexLe a b = true ∨ lexLe b a = true := by
  intro a
  induction a with
  | nil => intro b; left; rfl
  | cons x xs ih =>
    intro b
    cases b with
    | nil => right; rfl
    | cons y ys =>
      rcases lt_trichotomy x y with h | h | h
      · left; exact lexLe_cons_iff.mpr (Or.inl h)
      · rcases ih ys with hl | hr
        · left; exact lexLe_cons_iff.mpr (Or.inr ⟨h, hl⟩)
        · right; exact lexLe_cons_iff.mpr (Or.inr ⟨h.symm, hr⟩)
      · right; exact lexLe_cons_iff.mpr (Or.inl h)

theorem lexLe_trans : ∀ {a b c : Str}, lexLe a b = true → lexLe b c = true → lexLe a c = true := by
  intro a
  induction a with
  | nil => intro b c _ _; rfl
  | cons x xs ih =>
    intro b c hab hbc
    cases b with
    | nil => simp [lexLe] at hab
    | cons y ys =>
      cases c with
      | nil => simp [lexLe] at hbc
      | cons z zs =>
        rcases lexLe_cons_iff.mp hab with hxy | ⟨hxy, hxs⟩ <;>
          rcases lexLe_cons_iff.mp hbc with hyz | ⟨hyz, hys⟩
        · exact lexLe_cons_iff.mpr (Or.inl (lt_trans hxy hyz))
        · exact lexLe_cons_iff.mpr (Or.inl (hyz ▸ hxy))
        · exact lexLe_cons_iff.mpr (Or.inl (hxy ▸ hyz))
        · exact lexLe_cons_iff.mpr (Or.inr ⟨hxy.trans hyz, ih hxs hys⟩)

theorem lexLe_antisymm : ∀ {a b : Str}, lexLe a b = true → lexLe b a = true → a = b := by
  intro a
  induction a with
  | nil =>
    intro b _ hba
    cases b with
    | nil => rfl
    | cons y ys => simp [lexLe] at hba
  | cons x xs ih =>
    intro b hab hba
    cases b with
    | nil => simp [lexLe] at hab
    | cons y ys =>
      rcases lexLe_cons_iff.mp hab with hxy | ⟨hxy, hxs⟩ <;>
        rcases lexLe_cons_iff.mp hba with hyx | ⟨hyx, hys⟩
      · exact absurd hyx (lt_asymm hxy)
      · exact absurd (hyx ▸ hxy) (lt_irrefl y)
      · exact absurd (hxy ▸ hyx) (lt_irrefl y)
      · rw [hxy, ih hxs hys]

instance : IsTotal Str lexRel := ⟨lexLe_total⟩

instance : IsTrans Str lexRel := ⟨fun _ _ _ => lexLe_trans⟩

instance : IsAntisymm Str lexRel := ⟨fun _ _ => lexLe_antisymm⟩

theorem sortStr_sorted (l : List Str) : (sortStr l).Pairwise lexRel :=
  List.sorted_insertionSort lexRel l

theorem sortStr_perm (l : List Str) : List.Perm (sortStr l) l :=
  List.perm_insertionSort lexRel l

theorem sortStr_eq_of_perm {l1 l2 : List Str} (h : List.Perm l1 l2) : sortStr l1 = sortStr l2 :=
  List.eq_of_perm_of_sorted ((sortStr_perm l1).trans (h.trans (sortStr_perm l2).symm))
    (sortStr_sorted l1) (sortStr_sorted l2)

/-! ### The builder's post-resolution behaviour -/

theorem ParaFrame_resolved {fmt : Str} {args : List Val} {kwargs : List (Str × Val)}
    {pattern : Str} {kw : List (Str × Val)} {b : Bool} (fs : List Str)
    (hres : resolveLoop args (fmt.length / 3) fmt kwargs = .ok (pattern, kw, b)) :
    ParaFrame fmt args kwargs fs
      = .ok ((buildRows (tplOfString fmt) (globFiles pattern fs)).1,
        mkDF (buildRows (tplOfString fmt) (globFiles pattern fs)).2) := by
  unfold ParaFrame
  rw [hres]

/-- C6: the builder's row order is the lexicographic order of the matched
path strings, and the whole result is invariant under reordering of the
filesystem enumeration, so re-running the builder with identical arguments
against an unchanged filesystem reproduces the identical table, contents
and row order alike. -/
theorem builder_deterministic_sorted (fmt : Str) (args : List Val)
    (kwargs : List (Str × Val)) (fs1 fs2 : List Str) (log : List Str) (df : DataFrame)
    (hperm : List.Perm fs1 fs2)
    (hok : ParaFrame fmt args kwargs fs1 = .ok (log, df)) :
    ParaFrame fmt args kwargs fs2 = .ok (log, df) ∧ (dfPaths df).Pairwise lexRel := by
  cases hres : resolveLoop args (fmt.length / 3) fmt kwargs with
  | error e =>
    unfold ParaFrame at hok
    rw [hres] at hok
    cases hok
  | ok t =>
    obtain ⟨pattern, kw, b⟩ := t
    have h1 := ParaFrame_resolved fs1 hres
    have h2 := ParaFrame_resolved fs2 hres
    have hfiles : globFiles pattern fs1 = globFiles pattern fs2 :=
      sortStr_eq_of_perm (hperm.filter _)
    rw [h1] at hok
    have hinj := Except.ok.inj hok
    rw [Prod.mk.injEq] at hinj
    obtain ⟨hlog, hdf⟩ := hinj
    constructor
    · rw [h2, ← hfiles, hlog, hdf]
    · rw [← hdf]
      rw [show dfPaths (mkDF (buildRows (tplOfString fmt) (globFiles pattern fs1)).2)
          = (buildRows (tplOfString fmt) (globFiles pattern fs1)).2.filterMap getPath from rfl,
        buildRows_paths]
      exact (sortStr_sorted _).filter _

/-- Witness for C6 on the spec's canonical template and a two-file
filesystem listed in reversed order: the rebuilt table is identical and its
paths are sorted. -/
theorem builder_deterministic_sorted_witness :
    ParaFrame "data/run{run:d}_p{parameter:d}.csv".toList [] []
        ["data/run1_p10.csv".toList, "data/run2_p20.csv".toList]
      = .ok ([], ⟨[pathKey, "run".toList, "parameter".toList],
          [[(pathKey, Val.str "data/run1_p10.csv".toList), ("run".toList, Val.int 1),
            ("parameter".toList, Val.int 10)],
           [(pathKey, Val.str "data/run2_p20.csv".toList), ("run".toList, Val.int 2),
            ("parameter".toList, Val.int 20)]]⟩) ∧
    (dfPaths ⟨[pathKey, "run".toList, "parameter".toList],
          [[(pathKey, Val.str "data/run1_p10.csv".toList), ("run".toList, Val.int 1),
            ("parameter".toList, Val.int 10)],
           [(pathKey, Val.str "data/run2_p20.csv".toList), ("run".toList, Val.int 2),
            ("parameter".toList, Val.int 20)]]⟩).Pairwise lexRel :=
  builder_deterministic_sorted "data/run{run:d}_p{parameter:d}.csv".toList [] []
    ["data/run2_p20.csv".toList, "data/run1_p10.csv".toList]
    ["data/run1_p10.csv".toList, "data/run2_p20.csv".toList] _ _
    (by decide) (by decide)

/-- C7: every row of a built table arises from a successfully parsed path
and carries the path field followed by one typed field per placeholder of
the template, in template order; whenever the table has a row, its column
list is exactly path followed by the placeholder names.  (Stated for
templates whose placeholder names are distinct and do not reuse the path
key, where a row dict and its field list agree.) -/
theorem rows_have_all_columns (fmt : Str) (its : List Item) (args : List Val)
    (kwargs : List (Str × Val)) (fs : List Str) (log : List Str) (df : DataFrame)
    (row : List (Str × Val))
    (hT : tplOfString fmt = some its)
    (_hnd : (namesOf its).Nodup) (_hpk : pathKey ∉ namesOf its)
    (hok : ParaFrame fmt args kwargs fs = .ok (log, df)) (hrow : row ∈ df.rows) :
    row.map Prod.fst = pathKey :: namesOf its ∧ df.cols = pathKey :: namesOf its := by
  cases hres : resolveLoop args (fmt.length / 3) fmt kwargs with
  | error e =>
    unfold ParaFrame at hok
    rw [hres] at hok
    cases hok
  | ok t =>
    obtain ⟨pattern, kw, b⟩ := t
    rw [ParaFrame_resolved fs hres] at hok
    have hinj := Except.ok.inj hok
    rw [Prod.mk.injEq] at hinj
    obtain ⟨hlog, hdf⟩ := hinj
    have hkeys : ∀ r ∈ (buildRows (tplOfString fmt) (globFiles pattern fs)).2,
        r.map Prod.fst = pathKey :: namesOf its := by
      intro r hr
      obtain ⟨f, rec, hf, hsome, heq⟩ := buildRows_rows_char _ _ r hr
      rw [hT] at hsome
      have hsome' : parseGo its f = some rec := hsome
      rw [heq]
      rw [show (mkRow f rec).map Prod.fst = pathKey :: rec.map Prod.fst from rfl,
        parseGo_keys its f rec hsome']
    rw [← hdf] at hrow
    constructor
    · exact hkeys row hrow
    · rw [← hdf]
      cases hbr : (buildRows (tplOfString fmt) (globFiles pattern fs)).2 with
      | nil => rw [hbr] at hrow; cases hrow
      | cons r0 rs =>
        rw [show (mkDF (r0 :: rs)).cols = r0.map Prod.fst from rfl]
        exact hkeys r0 (hbr ▸ List.mem_cons_self r0 rs)

/-- Witness for C7 on the canonical template: the single row of the built
table has fields path, run, parameter, and so does the column list. -/
theorem rows_have_all_columns_witness :
    [(pathKey, Val.str "data/run1_p10.csv".toList), ("run".toList, Val.int 1),
        ("parameter".toList, Val.int 10)].map Prod.fst
      = pathKey :: namesOf [Item.lit 'd', Item.lit 'a', Item.lit 't', Item.lit 'a', Item.lit '/',
          Item.lit 'r', Item.lit 'u', Item.lit 'n', Item.field "run".toList ['d'],
          Item.lit '_', Item.lit 'p', Item.field "parameter".toList ['d'],
          Item.lit '.', Item.lit 'c', Item.lit 's', Item.lit 'v'] ∧
    (⟨[pathKey, "run".toList, "parameter".toList],
        [[(pathKey, Val.str "data/run1_p10.csv".toList), ("run".toList, Val.int 1),
          ("parameter".toList, Val.int 10)]]⟩ : DataFrame).cols
      = pathKey :: namesOf [Item.lit 'd', Item.lit 'a', Item.lit 't', Item.lit 'a', Item.lit '/',
          Item.lit 'r', Item.lit 'u', Item.lit 'n', Item.field "run".toList ['d'],
          Item.lit '_', Item.lit 'p', Item.field "parameter".toList ['d'],
          Item.lit '.', Item.lit 'c', Item.lit 's', Item.lit 'v'] :=
  rows_have_all_columns "data/run{run:d}_p{parameter:d}.csv".toList _ [] []
    ["data/run1_p10.csv".toList] [] _ _ (by decide) (by decide) (by decide)
    (by decide) (by decide)

/-- C5: a matched path the parser rejects is skipped, a diagnostic naming
exactly that path is emitted, the path contributes no row, and every other
matched path that does parse still contributes its row; the parse failure
never aborts the build, which still returns a table. -/
theorem parse_failure_skips (fmt : Str) (args : List Val) (kwargs : List (Str × Val))
    (fs : List Str) (pattern : Str) (kw : List (Str × Val)) (b : Bool)
    (f g : Str) (r : List (Str × Val))
    (hres : resolveLoop args (fmt.length / 3) fmt kwargs = .ok (pattern, kw, b))
    (hf : f ∈ globFiles pattern fs)
    (hfail : (tplOfString fmt).bind (fun its => parseGo its f) = none)
    (hg : g ∈ globFiles pattern fs)
    (hgood : (tplOfString fmt).bind (fun its => parseGo its g) = some r) :
    ∃ log df, ParaFrame fmt args kwargs fs = .ok (log, df) ∧
      failMsg f ∈ log ∧ f ∉ dfPaths df ∧ mkRow g r ∈ df.rows := by
  refine ⟨_, _, ParaFrame_resolved fs hres, ?_, ?_, ?_⟩
  · exact buildRows_log _ _ f hf hfail
  · rw [show dfPaths (mkDF (buildRows (tplOfString fmt) (globFiles pattern fs)).2)
        = (buildRows (tplOfString fmt) (globFiles pattern fs)).2.filterMap getPath from rfl,
      buildRows_paths]
    intro hmem
    have := (List.mem_filter.mp hmem).2
    rw [hfail] at this
    cases this
  · exact buildRows_row_mem _ _ g hg r hgood

/-- Witness for C5: with template a-brace-x-colon-d-brace over files aQ and
a7, the malformed aQ is reported and excluded while a7 still yields its
row. -/
theorem parse_failure_skips_witness :
    ∃ log df, ParaFrame "a{x:d}".toList [] [] ["aQ".toList, "a7".toList] = .ok (log, df) ∧
      failMsg "aQ".toList ∈ log ∧ "aQ".toList ∉ dfPaths df ∧
      mkRow "a7".toList [("x".toList, Val.int 7)] ∈ df.rows :=
  parse_failure_skips "a{x:d}".toList [] [] ["aQ".toList, "a7".toList]
    "a*".toList [("x".toList, Val.str ['*'])] true "aQ".toList "a7".toList
    [("x".toList, Val.int 7)] (by decide) (by decide) (by decide) (by decide) (by decide)

/-- C4 (amended): every path the enumeration produces matches the resolved
glob pattern, and when its re-parse against the original template succeeds
the record carries one typed value per placeholder; the re-parse is not
guaranteed to succeed, nor to reproduce the caller's bindings, as the
counterexample shows. -/
theorem enumerated_paths_parse (fmt : Str) (its : List Item) (args : List Val)
    (kwargs : List (Str × Val)) (fs : List Str) (pattern : Str) (kw : List (Str × Val))
    (b : Bool) (f : Str) (r : List (Str × Val))
    (_hT : tplOfString fmt = some its)
    (_hres : resolveLoop args (fmt.length / 3) fmt kwargs = .ok (pattern, kw, b))
    (hf : f ∈ globFiles pattern fs)
    (hpar : parseGo its f = some r) :
    globMatch pattern f = true ∧ r.map Prod.fst = namesOf its := by
  constructor
  · have hmem : f ∈ fs.filter (fun f => globMatch pattern f) :=
      (sortStr_perm _).mem_iff.mp hf
    exact (List.mem_filter.mp hmem).2
  · exact parseGo_keys its f r hpar

/-- C4 counterexample: the round-trip claim fails both ways.  With template
a-brace-x-colon-d-brace and a file aQ, the resolved pattern a-star matches
aQ, but the re-parse rejects it (the builder reports and drops it), so an
enumerated path need not re-parse.  And with the template of two adjacent
untyped fields, bindings a = pq, b = r and the matching file pqr, the
re-parse succeeds but recovers a = p and b = qr, disagreeing with the
caller's concrete binding for a. -/
theorem enumerated_paths_parse_counterexample :
    ParaFrame "a{x:d}".toList [] [] ["aQ".toList]
      = .ok ([failMsg "aQ".toList], ⟨[], []⟩) ∧
    ParaFrame "{a}{b}".toList []
        [("a".toList, Val.str "pq".toList), ("b".toList, Val.str "r".toList)] ["pqr".toList]
      = .ok ([], ⟨[pathKey, "a".toList, "b".toList],
          [[(pathKey, Val.str "pqr".toList), ("a".toList, Val.str "p".toList),
            ("b".toList, Val.str "qr".toList)]]⟩) ∧
    ¬ ("a".toList, Val.str "pq".toList)
        ∈ [(pathKey, Val.str "pqr".toList), ("a".toList, Val.str "p".toList),
           ("b".toList, Val.str "qr".toList)] := by
  refine ⟨by decide, by decide, by decide⟩

/-- Witness for C4's amended theorem: with the canonical template and its
one matching file, the enumerated path matches the glob pattern and its
record's fields are path-free and complete. -/
theorem enumerated_paths_parse_witness :
    globMatch "data/run*_p*.csv".toList "data/run1_p10.csv".toList = true ∧
    [("run".toList, Val.int 1), ("parameter".toList, Val.int 10)].map Prod.fst
      = namesOf [Item.lit 'd', Item.lit 'a', Item.lit 't', Item.lit 'a', Item.lit '/',
          Item.lit 'r', Item.lit 'u', Item.lit 'n', Item.field "run".toList ['d'],
          Item.lit '_', Item.lit 'p', Item.field "parameter".toList ['d'],
          Item.lit '.', Item.lit 'c', Item.lit 's', Item.lit 'v'] :=
  enumerated_paths_parse "data/run{run:d}_p{parameter:d}.csv".toList _ [] []
    ["data/run1_p10.csv".toList] "data/run*_p*.csv".toList
    [("run".toList, Val.str ['*']), ("parameter".toList, Val.str ['*'])] true
    "data/run1_p10.csv".toList _ (by decide) (by decide) (by decide) (by decide)

/-- C2 counterexample: for the template of two minimal placeholders the
retry bound (length six over three, so two) is exhausted with both keys
bound but the final substitution never executed: the loop leaves with the
break flag false and a pattern still containing placeholder braces, yet the
builder returns an ordinary ok result (an empty table) instead of
surfacing any error. -/
theorem bound_exceeded_counterexample :
    resolveLoop [] ("{a}{b}".toList.length / 3) "{a}{b}".toList []
      = .ok ("{a:s}{b:s}".toList,
          [("a".toList, Val.str ['*']), ("b".toList, Val.str ['*'])], false) ∧
    '{' ∈ "{a:s}{b:s}".toList ∧
    ParaFrame "{a}{b}".toList [] [] ["somefile".toList] = .ok ([], ⟨[], []⟩) := by
  refine ⟨by decide, by decide, by decide⟩

/-- C2 (amended): exceeding the retry bound without achieving full
substitution is not surfaced as an error: the builder silently continues
with the partially substituted pattern and returns an ordinary table built
from whatever paths match that leftover pattern literally. -/
theorem bound_exhausted_not_fatal (fmt : Str) (args : List Val) (kwargs : List (Str × Val))
    (fs : List Str) (pattern : Str) (kw : List (Str × Val))
    (hres : resolveLoop args (fmt.length / 3) fmt kwargs = .ok (pattern, kw, false)) :
    ParaFrame fmt args kwargs fs
      = .ok ((buildRows (tplOfString fmt) (globFiles pattern fs)).1,
        mkDF (buildRows (tplOfString fmt) (globFiles pattern fs)).2) :=
  ParaFrame_resolved fs hres

/-- Witness for C2's amended theorem at the exhausting template: the call
returns ok. -/
theorem bound_exhausted_not_fatal_witness :
    ParaFrame "{a}{b}".toList [] [] ["somefile".toList]
      = .ok ((buildRows (tplOfString "{a}{b}".toList)
            (globFiles "{a:s}{b:s}".toList ["somefile".toList])).1,
        mkDF (buildRows (tplOfString "{a}{b}".toList)
            (globFiles "{a:s}{b:s}".toList ["somefile".toList])).2) :=
  bound_exhausted_not_fatal "{a}{b}".toList [] [] ["somefile".toList] "{a:s}{b:s}".toList
    [("a".toList, Val.str ['*']), ("b".toList, Val.str ['*'])] (by decide)

/-- C3, evaluated at the failing input: for the template of two minimal
placeholders and no bindings, the retry loop does terminate within the
bound of two iterations, but because each iteration only rewrites and binds
one key, the final substitution never runs: the resulting search pattern
keeps both placeholders in brace-colon-s form and contains zero wildcard
substitutions instead of the claimed two. -/
theorem retry_bound_off_by_one :
    resolveLoop [] ("{a}{b}".toList.length / 3) "{a}{b}".toList []
      = .ok ("{a:s}{b:s}".toList,
          [("a".toList, Val.str ['*']), ("b".toList, Val.str ['*'])], false) ∧
    "{a:s}{b:s}".toList.count '*' = 0 := by
  refine ⟨by decide, by decide⟩

/-- C8 counterexample: with template a-brace-x-brace, the positional value v
is not bound to the named placeholder x.  Supplied positionally, every
format attempt still raises KeyError for x, the pattern degenerates to the
unsubstituted a-brace-x-colon-s-brace and nothing matches; supplied as the
named binding x = v, the pattern becomes av and the matching file yields a
row.  The two calls differ, so positional values are not equivalent to
named bindings for declared placeholders. -/
theorem positional_binding_counterexample :
    ParaFrame "a{x}".toList [Val.str "v".toList] [] ["av".toList]
      = .ok ([], ⟨[], []⟩) ∧
    ParaFrame "a{x}".toList [] [("x".toList, Val.str "v".toList)] ["av".toList]
      = .ok ([], ⟨[pathKey, "x".toList],
          [[(pathKey, Val.str "av".toList), ("x".toList, Val.str "v".toList)]]⟩) := by
  refine ⟨by decide, by decide⟩

theorem lookupV_append_none {k : Str} {l1 : List (Str × Val)} (l2 : List (Str × Val))
    (h : lookupV k l1 = none) : lookupV k (l1 ++ l2) = lookupV k l2 := by
  induction l1 with
  | nil => rfl
  | cons p t ih =>
    obtain ⟨k', v⟩ := p
    by_cases hk : k = k'
    · rw [show lookupV k ((k', v) :: t) = if k = k' then some v else lookupV k t from rfl,
        if_pos hk] at h
      cases h
    · rw [show lookupV k ((k', v) :: t) = if k = k' then some v else lookupV k t from rfl,
        if_neg hk] at h
      rw [List.cons_append,
        show lookupV k ((k', v) :: (t ++ l2)) = if k = k' then some v else lookupV k (t ++ l2)
          from rfl,
        if_neg hk]
      exact ih h

theorem formatStr_missing_x (args : List Val) (kwargs : List (Str × Val))
    (hx : lookupV "x".toList kwargs = none) :
    formatStr "abc{x}".toList args kwargs = .error (.keyError "x".toList) := by
  have hx' : lookupV ['x'] kwargs = none := hx
  simp [formatStr, fmtGo, fieldVal, hx']

theorem formatStr_rewritten_x (args : List Val) (kwargs : List (Str × Val))
    (hx : lookupV "x".toList kwargs = none) :
    formatStr "abc{x:s}".toList args (kwargs ++ [("x".toList, Val.str ['*'])])
      = .ok "abc*".toList := by
  have hx' : lookupV ['x'] kwargs = none := hx
  have hlk : lookupV ['x'] (kwargs ++ [(['x'], Val.str ['*'])]) = some (Val.str ['*']) := by
    rw [lookupV_append_none _ hx']; rfl
  simp [formatStr, fmtGo, fieldVal, hlk, formatVal]

/-- C8 (amended): positional values are passed straight to the format
substitution, so they fill only anonymous (auto-numbered) brace-brace
fields, in order -- for the two-anonymous-field template the resolved
pattern is the two positional values rendered in sequence, whatever
keyword bindings accompany them.  A named placeholder is never bound by a
positional value: whenever its name has no keyword binding it is rewritten
and wildcarded regardless of the positional values supplied, as the
abc-brace-x-brace template shows. -/
theorem positional_fills_anonymous (a b : Val) (args : List Val) (kwargs : List (Str × Val))
    (hx : lookupV "x".toList kwargs = none) :
    resolveLoop [a, b] ("{}{}".toList.length / 3) "{}{}".toList kwargs
      = .ok (valRender a ++ valRender b, kwargs, true) ∧
    resolveLoop args ("abc{x}".toList.length / 3) "abc{x}".toList kwargs
      = .ok ("abc*".toList, kwargs ++ [("x".toList, Val.str ['*'])], true) := by
  constructor
  · have h1 : formatStr "{}{}".toList [a, b] kwargs
        = .ok (valRender a ++ (valRender b ++ [])) := by
      simp [formatStr, fmtGo, fieldVal, formatVal]
    show resolveLoop [a, b] 1 "{}{}".toList kwargs = _
    rw [show (1 : Nat) = 0 + 1 from rfl]
    unfold resolveLoop
    rw [h1]
    simp
  · have h1 := formatStr_missing_x args kwargs hx
    have hsub : reSub "x".toList "abc{x}".toList = "abc{x:s}".toList := by decide
    have h2 := formatStr_rewritten_x args kwargs hx
    show resolveLoop args 2 "abc{x}".toList kwargs = _
    rw [show (2 : Nat) = 1 + 1 from rfl]
    unfold resolveLoop
    rw [h1]
    unfold resolveLoop
    rw [hsub, h2]

/-- Witness for C8's amended theorem: positional values u and 3 fill the
two anonymous fields giving the pattern u3, while for abc-brace-x-brace the
same positional values leave x unbound and the pattern resolves to
abc-star. -/
theorem positional_fills_anonymous_witness :
    resolveLoop [Val.str "u".toList, Val.int 3] ("{}{}".toList.length / 3) "{}{}".toList []
      = .ok (valRender (Val.str "u".toList) ++ valRender (Val.int 3), [], true) ∧
    resolveLoop [Val.str "u".toList, Val.int 3] ("abc{x}".toList.length / 3) "abc{x}".toList []
      = .ok ("abc*".toList, [] ++ [("x".toList, Val.str ['*'])], true) :=
  positional_fills_anonymous (Val.str "u".toList) (Val.int 3)
    [Val.str "u".toList, Val.int 3] [] (by decide)

end Hallmark
